import Mathlib

/-!
Shallow embedding of the claim-coercion layer of a JWT helper library
(source file `claims.go`).  A `Claims` value is the decoded token payload:
a map from claim names to dynamically typed values.  The coercion
functions (`stringify`, `Claims.String`, `Claims.Strings`, `Claims.Bool`,
`Claims.Int`, `Claims.Time`) are translated branch by branch from the Go
source; machine integers are embedded as `Int`/`Nat` with explicit
wrapping where the Go conversions wrap, and Go `float32`/`float64` values
are modelled as rationals.
-/

/-- A dynamically typed value held in a claim map: the Go `interface{}`
payload produced by a generic decoder.  Signed integer constructors carry
an `Int`, unsigned ones a `Nat` (in-range by well-formedness), floats a
rational.  `stringer` carries the result of the value's `String()` method;
`other` carries the `fmt.Sprintf` percent-v rendering of a value of any
type not otherwise listed. -/
inductive JValue where
  | null
  | str (s : String)
  | boolean (b : Bool)
  | goInt (n : Int)
  | goInt8 (n : Int)
  | goInt16 (n : Int)
  | goInt32 (n : Int)
  | goInt64 (n : Int)
  | goUint (n : Nat)
  | goUint8 (n : Nat)
  | goUint16 (n : Nat)
  | goUint32 (n : Nat)
  | goUint64 (n : Nat)
  | goFloat32 (q : Rat)
  | goFloat64 (q : Rat)
  | strList (l : List String)
  | list (l : List JValue)
  | stringer (rendered : String)
  | other (formatted : String)

/-- `Claims` is the decoded claim map (`map[string]interface{}` in the
source), embedded as an association list with unique keys. -/
abbrev Claims := List (String × JValue)

/-- Alias for `String`, used in signatures of declarations living in the
`Claims` namespace, where the bare name `String` would resolve to the
accessor `Claims.String`. -/
abbrev Str := String

/-- Map lookup with a present/absent distinction: the two-result form
`s, ok := c[name]` of a Go map access. -/
def Claims.lookup (c : Claims) (name : Str) : Option JValue :=
  List.lookup name c

/-- The one-result form `c[name]` of a Go map access: an absent key
yields the nil interface value. -/
def Claims.index (c : Claims) (name : Str) : JValue :=
  (Claims.lookup c name).getD .null

/-- The decimal digit with value `d` (`d < 10`). -/
def digitChar (d : Nat) : Char := Char.ofNat (48 + d)

/-- Accumulator-style most-significant-first decimal digits of a natural
number; structural recursion on a fuel argument that bounds the number,
so that the kernel can reduce concrete calls. -/
def natDigitsCore (fuel n : Nat) (acc : List Nat) : List Nat :=
  match fuel with
  | 0 => n :: acc
  | fuel + 1 => if n < 10 then n :: acc else natDigitsCore fuel (n / 10) (n % 10 :: acc)

/-- Decimal digit characters of a natural number, as written by Go's
`strconv`/`fmt` decimal formatting. -/
def formatNat (n : Nat) : List Char :=
  (natDigitsCore n n []).map digitChar

/-- Base-10 rendering of a signed integer (Go `strconv.FormatInt(n, 10)`,
also the `%v`/`%d` rendering). -/
def formatInt (z : Int) : String :=
  if z < 0 then String.mk ('-' :: formatNat z.natAbs) else String.mk (formatNat z.natAbs)

/-- Rendering of a floating value by Go's percent-v verb.  Floating-point
numbers are modelled as rationals; only integer-valued floats occur in the
verified properties, and for those the rendering is the integer's digits.
Non-integral values are rendered as numerator/denominator, standing in for
Go's shortest-decimal form, which is not modelled digit for digit. -/
def formatFloatGo (q : Rat) : String :=
  if q.den = 1 then formatInt q.num
  else formatInt q.num ++ "/" ++ String.mk (formatNat q.den)

mutual
/-- `fmt.Sprintf` percent-v rendering of a dynamic value: `"<nil>"` for nil,
`true`/`false` for booleans, decimal digits for integers, bracketed
space-separated elements for slices, the `String()` result for a
`fmt.Stringer`. -/
def goFormat : JValue → String
  | .null => "<nil>"
  | .str s => s
  | .boolean b => cond b "true" "false"
  | .goInt n => formatInt n
  | .goInt8 n => formatInt n
  | .goInt16 n => formatInt n
  | .goInt32 n => formatInt n
  | .goInt64 n => formatInt n
  | .goUint n => String.mk (formatNat n)
  | .goUint8 n => String.mk (formatNat n)
  | .goUint16 n => String.mk (formatNat n)
  | .goUint32 n => String.mk (formatNat n)
  | .goUint64 n => String.mk (formatNat n)
  | .goFloat32 q => formatFloatGo q
  | .goFloat64 q => formatFloatGo q
  | .strList l => "[" ++ String.intercalate " " l ++ "]"
  | .list l => "[" ++ String.intercalate " " (goFormatList l) ++ "]"
  | .stringer r => r
  | .other f => f

/-- Percent-v rendering of each element of a `[]interface{}` value. -/
def goFormatList : List JValue → List String
  | [] => []
  | v :: rest => goFormat v :: goFormatList rest
end

/-- `stringify` from the source: nil becomes the empty string, a string is
returned unchanged, a `fmt.Stringer` uses its own rendering, and any other
value goes through `fmt.Sprintf` percent-v. -/
def stringify (v : JValue) : String :=
  match v with
  | .null => ""
  | .str s => s
  | .stringer r => r
  | v => goFormat v

/-- `Claims.String`: look the name up and stringify, so an absent claim
yields the empty string. -/
def Claims.String (c : Claims) (name : Str) : Str :=
  stringify (Claims.index c name)

/-- `Claims.Strings`: nil for an absent claim; a `[]string` as is; a single
string wrapped in a one-element slice; a `[]interface{}` stringified
element by element; anything else stringified and wrapped. -/
def Claims.Strings (c : Claims) (name : Str) : List Str :=
  match Claims.lookup c name with
  | none => []
  | some v =>
    match v with
    | .strList ts => ts
    | .str ts => [ts]
    | .list ts => ts.map stringify
    | ts => [stringify ts]

/-- Character class `[Tt]`. -/
def clTt (c : Char) : Bool := c = 'T' || c = 't'

/-- Character class `[1-9]`. -/
def clPos (c : Char) : Bool := 49 ≤ c.toNat && c.toNat ≤ 57

/-- Character class `[0-9]`. -/
def clDig (c : Char) : Bool := 48 ≤ c.toNat && c.toNat ≤ 57

/-- Matcher for the suffix `r?u?e` of the truthiness pattern: the four
strings it can produce. -/
def matchTail : List Char → Bool
  | ['e'] => true
  | ['r', 'e'] => true
  | ['u', 'e'] => true
  | ['r', 'u', 'e'] => true
  | _ => false

/-- The compiled form of the source's anchored regular expression
`trueBool`, pattern `^([Tt]r?u?e|[1-9][0-9]+)$`, over the character
list of the subject string. -/
def trueBoolL : List Char → Bool
  | [] => false
  | c :: rest =>
    if clTt c then matchTail rest
    else if clPos c then !rest.isEmpty && rest.all clDig
    else false

/-- `trueBool.MatchString` from the source, applied to a whole string. -/
def trueBool (s : String) : Bool := trueBoolL s.data

/-- `Claims.Bool`: a stored boolean as is; the enumerated numeric types by
sign test; a string through the `trueBool` pattern; everything else
(including nil, 8- and 16-bit integers, slices) false. -/
def Claims.Bool (c : Claims) (name : Str) : Bool :=
  match Claims.index c name with
  | .boolean b => b
  | .goInt n => decide (0 < n)
  | .goUint n => decide (0 < n)
  | .goInt32 n => decide (0 < n)
  | .goUint32 n => decide (0 < n)
  | .goInt64 n => decide (0 < n)
  | .goUint64 n => decide (0 < n)
  | .goFloat64 q => decide (0 < q)
  | .goFloat32 q => decide (0 < q)
  | .str s => trueBool s
  | _ => false

/-- Two's-complement wrap of an integer into the signed 64-bit range, the
effect of Go's `int64(x)` conversion on an out-of-range operand. -/
def wrap64 (z : Int) : Int := (z + 2 ^ 63) % 2 ^ 64 - 2 ^ 63

/-- Truncation toward zero of a rational, the effect of Go's `int64(f)`
conversion on a float whose value fits. -/
def ratTrunc (q : Rat) : Int := Int.tdiv q.num q.den

/-- Value of an accumulator fold over decimal digit characters; fails on
the first non-digit character. -/
def decDigitsVal (acc : Nat) : List Char → Option Nat
  | [] => some acc
  | c :: rest => if clDig c then decDigitsVal (acc * 10 + (c.toNat - 48)) rest else none

/-- Parse a non-empty run of decimal digits as a natural number. -/
def parseNatDec : List Char → Option Nat
  | [] => none
  | l => decDigitsVal 0 l

/-- The digits-and-range part of `strconv.ParseInt(s, 10, 64)`: the value
must fit in a signed 64-bit integer, `1<<63` being allowed only when
negated. -/
def parseSigned (neg : Bool) (l : List Char) : Option Int :=
  match parseNatDec l with
  | none => none
  | some n =>
    if neg then if n ≤ 2 ^ 63 then some (-(n : Int)) else none
    else if n ≤ 2 ^ 63 - 1 then some ((n : Int)) else none

/-- `strconv.ParseInt(s, 10, 64)` over the character list: an optional
sign followed by decimal digits, range-checked against the signed 64-bit
bounds; `none` is the error case. -/
def parseInt64L : List Char → Option Int
  | [] => none
  | c :: rest =>
    if c = '+' then parseSigned false rest
    else if c = '-' then parseSigned true rest
    else parseSigned false (c :: rest)

/-- `strconv.ParseInt(s, 10, 64)` on a string. -/
def parseInt64 (s : String) : Option Int := parseInt64L s.data

/-- `Claims.Int`: the enumerated numeric types converted to `int64`
(wrapping where the Go conversion wraps, truncating floats), a string
through `strconv.ParseInt` with base 10, and 0 for every other value,
including parse failures and absent claims. -/
def Claims.Int (c : Claims) (name : Str) : Int :=
  match Claims.index c name with
  | .goUint64 n => wrap64 n
  | .goUint32 n => Int.ofNat n
  | .goUint n => wrap64 n
  | .goInt64 n => n
  | .goInt32 n => n
  | .goInt n => n
  | .goFloat64 q => wrap64 (ratTrunc q)
  | .goFloat32 q => wrap64 (ratTrunc q)
  | .str s => (parseInt64 s).getD 0
  | _ => 0

/-- A Go `time.Location` as far as this code observes it: either UTC or
anything else (the local/fabricated zone `time.Unix` and `time.Parse`
attach before `.UTC()` is called). -/
inductive GoLoc where
  | goLocal
  | utc
deriving DecidableEq

/-- A Go `time.Time` as far as this code observes it: an epoch-seconds
instant plus its location. -/
structure GoTime where
  sec : Int
  loc : GoLoc
deriving DecidableEq

/-- `time.Unix(sec, 0)`: the instant, carrying the non-UTC local zone. -/
def timeUnix (s : Int) : GoTime := ⟨s, .goLocal⟩

/-- `Time.UTC()`: same instant, location set to UTC. -/
def GoTime.toUTC (t : GoTime) : GoTime := ⟨t.sec, .utc⟩

/-- Exactly two decimal digits, as Go's fixed-width `getnum`. -/
def parse2 : List Char → Option (Nat × List Char)
  | c1 :: c2 :: rest =>
    if clDig c1 && clDig c2 then some ((c1.toNat - 48) * 10 + (c2.toNat - 48), rest)
    else none
  | _ => none

/-- One or two decimal digits, as Go's flexible-width `getnum` used for
the hour element of the layout. -/
def parseHour2 : List Char → Option (Nat × List Char)
  | [] => none
  | [c1] => if clDig c1 then some (c1.toNat - 48, []) else none
  | c1 :: c2 :: rest =>
    if clDig c1 then
      if clDig c2 then some ((c1.toNat - 48) * 10 + (c2.toNat - 48), rest)
      else some (c1.toNat - 48, c2 :: rest)
    else none

/-- Consume one expected literal character. -/
def expectChar (c : Char) : List Char → Option (List Char)
  | [] => none
  | d :: rest => if d = c then some rest else none

/-- The short month names of the `Jan` layout element. -/
def monthNames : List String :=
  ["Jan", "Feb", "Mar", "Apr", "May", "Jun", "Jul", "Aug", "Sep", "Oct", "Nov", "Dec"]

/-- Match a three-letter month abbreviation, yielding the month number. -/
def parseMonth : List Char → Option (Nat × List Char)
  | a :: b :: c :: rest =>
    match List.indexOf? (String.mk [a, b, c]) monthNames with
    | some i => some (i + 1, rest)
    | none => none
  | _ => none

/-- Upper-case ASCII letter. -/
def isUpperCh (c : Char) : Bool := 65 ≤ c.toNat && c.toNat ≤ 90

/-- Modelled from Go's `time.parseSignedOffset` (standard library, not
part of this repository): a '+' or '-' sign followed by at least one
decimal digit whose value is at most 23; the result is the number of
characters consumed, 0 meaning no match. -/
def parseSignedOffset (l : List Char) : Nat :=
  match l with
  | [] => 0
  | c :: rest =>
    if c = '+' || c = '-' then
      let ds := rest.takeWhile clDig
      if ds.isEmpty then 0
      else
        let x : Nat := ds.foldl (fun a d => a * 10 + (d.toNat - 48)) 0
        if x > 23 then 0 else 1 + ds.length
    else 0

/-- Modelled from Go's `time.parseGMT` (standard library, not part of
this repository): the three letters "GMT", optionally followed by a
signed hour offset; the result is the number of characters consumed. -/
def parseGMT (l : List Char) : Nat :=
  3 + parseSignedOffset (l.drop 3)

/-- Modelled from Go's `time.parseTimeZone` (standard library, not part
of this repository): how many characters of the input form a zone
abbreviation — the special names "ChST"/"MeST", "GMT" with an optional
signed hour offset, a signed numeric offset of at most 23 hours, or a
run of three to five upper-case letters, where four- and five-letter
names must end in 'T' except for "WITA". -/
def parseTimeZone (l : List Char) : Option Nat :=
  if l.length < 3 then none
  else if l.take 4 = ['C', 'h', 'S', 'T'] || l.take 4 = ['M', 'e', 'S', 'T'] then some 4
  else if l.take 3 = ['G', 'M', 'T'] then some (parseGMT l)
  else if l.headD ' ' = '+' || l.headD ' ' = '-' then
    let n := parseSignedOffset l
    if n > 0 then some n else none
  else
    match (l.takeWhile isUpperCh).length with
    | 3 => some 3
    | 4 => if l.getD 3 ' ' = 'T' || l.take 4 = ['W', 'I', 'T', 'A'] then some 4 else none
    | 5 => if l.getD 4 ' ' = 'T' then some 5 else none
    | _ => none

/-- Modelled from the zone-element handler of Go's `time.Parse` (standard
library, not part of this repository): a literal "UTC" prefix is consumed
first and denotes the UTC location; any other abbreviation accepted by
`parseTimeZone` yields, per the documented `Parse` semantics, a
fabricated location with zero offset and no adjustment of the instant —
this covers named abbreviations, signed numeric offsets and the
GMT-with-offset form alike, whose offsets affect only presentation. -/
def parseZone (l : List Char) : Option (List Char × GoLoc) :=
  if l.take 3 = ['U', 'T', 'C'] then some (l.drop 3, GoLoc.utc)
  else
    match parseTimeZone l with
    | some n => some (l.drop n, GoLoc.goLocal)
    | none => none

/-- Gregorian leap-year rule. -/
def isLeapYear (y : Nat) : Bool := (y % 4 = 0 && y % 100 ≠ 0) || y % 400 = 0

/-- Length of a month, leap Februaries included. -/
def daysInMonth (y m : Nat) : Nat :=
  if m = 2 then (if isLeapYear y then 29 else 28)
  else if m = 4 || m = 6 || m = 9 || m = 11 then 30
  else 31

/-- Days from the Unix epoch to the civil date y-m-d (proleptic Gregorian,
era decomposition). -/
def daysFromCivil (y m d : Nat) : Int :=
  let y1 : Nat := if m ≤ 2 then y - 1 else y
  let era : Nat := y1 / 400
  let yoe : Nat := y1 % 400
  let mp : Nat := (m + 9) % 12
  let doy : Nat := (153 * mp + 2) / 5 + d - 1
  let doe : Nat := yoe * 365 + yoe / 4 - yoe / 100 + doy
  ((era * 146097 + doe : Nat) : Int) - 719468

/-- The two-digit-year rule of Go's `Parse`: 69..99 mean 19xx, 00..68 mean
20xx. -/
def yearOf (yy : Nat) : Nat := if 69 ≤ yy then 1900 + yy else 2000 + yy

/-- Modelled from Go's `time.Parse` with the RFC 822 layout
`"02 Jan 06 15:04 MST"` (standard library, not part of this repository):
two-digit day, month abbreviation, two-digit year, one-or-two-digit hour,
two-digit minute, zone element; field ranges are validated and the whole
input must be consumed.  Every zone `parseZone` accepts — the UTC special
case, named abbreviations, signed numeric offsets, GMT forms — leaves the
instant as the civil fields read as UTC, Go's documented fabricated-zone
semantics. -/
def rfc822Parse (s : String) : Option GoTime := do
  let (dd, r1) ← parse2 s.data
  let r2 ← expectChar ' ' r1
  let (mon, r3) ← parseMonth r2
  let r4 ← expectChar ' ' r3
  let (yy, r5) ← parse2 r4
  let r6 ← expectChar ' ' r5
  let (hh, r7) ← parseHour2 r6
  let r8 ← expectChar ':' r7
  let (mi, r9) ← parse2 r8
  let r10 ← expectChar ' ' r9
  let (r11, zloc) ← parseZone r10
  if r11.isEmpty && decide (hh ≤ 23) && decide (mi ≤ 59) && decide (1 ≤ dd)
      && decide (dd ≤ daysInMonth (yearOf yy) mon) then
    some ⟨daysFromCivil (yearOf yy) mon dd * 86400 + (hh : Int) * 3600 + (mi : Int) * 60,
          zloc⟩
  else none

/-- `Claims.Time`: the enumerated numeric types through `time.Unix` as
epoch seconds followed by `.UTC()` (unsigned 64-bit and platform `uint`
wrapping through the `int64` conversion, floats truncating), a string
through `time.Parse` with the RFC 822 layout converted to UTC on success,
and the epoch origin in UTC for parse failures and every other value. -/
def Claims.Time (c : Claims) (name : Str) : GoTime :=
  match Claims.index c name with
  | .goUint64 n => (timeUnix (wrap64 n)).toUTC
  | .goUint32 n => (timeUnix n).toUTC
  | .goUint n => (timeUnix (wrap64 n)).toUTC
  | .goInt64 n => (timeUnix n).toUTC
  | .goInt32 n => (timeUnix n).toUTC
  | .goInt n => (timeUnix n).toUTC
  | .goFloat64 q => (timeUnix (wrap64 (ratTrunc q))).toUTC
  | .goFloat32 q => (timeUnix (wrap64 (ratTrunc q))).toUTC
  | .str s =>
    match rfc822Parse s with
    | some t => t.toUTC
    | none => (timeUnix 0).toUTC
  | _ => (timeUnix 0).toUTC

/-- `Claims.Issuer`: the standard `iss` claim as a string. -/
def Claims.Issuer (c : Claims) : Str := Claims.String c "iss"

/-- `Claims.Subject`: the standard `sub` claim as a string. -/
def Claims.Subject (c : Claims) : Str := Claims.String c "sub"

/-- `Claims.IssuedAt`: the standard `iat` claim as a time. -/
def Claims.IssuedAt (c : Claims) : GoTime := Claims.Time c "iat"

/-- `Claims.NotBefore`: the standard `nbf` claim as a time. -/
def Claims.NotBefore (c : Claims) : GoTime := Claims.Time c "nbf"

/-- `Claims.ExpiresAt`: the standard `exp` claim as a time. -/
def Claims.ExpiresAt (c : Claims) : GoTime := Claims.Time c "exp"

/-- Well-formedness of a stored dynamic value: each machine-integer
constructor carries a value representable at its Go width.  (List
contents do not influence any numeric coercion, so no recursion is
needed.) -/
def wfv : JValue → Bool
  | .goInt n => decide (-(2 ^ 63) ≤ n) && decide (n < 2 ^ 63)
  | .goInt8 n => decide (-(2 ^ 7) ≤ n) && decide (n < 2 ^ 7)
  | .goInt16 n => decide (-(2 ^ 15) ≤ n) && decide (n < 2 ^ 15)
  | .goInt32 n => decide (-(2 ^ 31) ≤ n) && decide (n < 2 ^ 31)
  | .goInt64 n => decide (-(2 ^ 63) ≤ n) && decide (n < 2 ^ 63)
  | .goUint n => decide (n < 2 ^ 64)
  | .goUint8 n => decide (n < 2 ^ 8)
  | .goUint16 n => decide (n < 2 ^ 16)
  | .goUint32 n => decide (n < 2 ^ 32)
  | .goUint64 n => decide (n < 2 ^ 64)
  | _ => true

/-- Power of ten matching the digit recursion of `natDigitsCore`. -/
def tenPowCore (fuel n : Nat) : Nat :=
  match fuel with
  | 0 => 10
  | fuel + 1 => if n < 10 then 10 else 10 * tenPowCore fuel (n / 10)

/-- A regular expression over characters: character classes, sequencing,
alternation, option and plus — the constructs of the source's truthiness
pattern. -/
inductive RE where
  | chr (p : Char → Bool)
  | seq (a b : RE)
  | alt (a b : RE)
  | opt (a : RE)
  | plus (a : RE)

/-- Anchored matching semantics of a regular expression against a whole
character list. -/
inductive RE.Matches : RE → List Char → Prop where
  | chr {p : Char → Bool} {c : Char} : p c = true → RE.Matches (.chr p) [c]
  | seqm {a b : RE} {l1 l2 : List Char} :
      RE.Matches a l1 → RE.Matches b l2 → RE.Matches (.seq a b) (l1 ++ l2)
  | altl {a b : RE} {l : List Char} : RE.Matches a l → RE.Matches (.alt a b) l
  | altr {a b : RE} {l : List Char} : RE.Matches b l → RE.Matches (.alt a b) l
  | optn {a : RE} : RE.Matches (.opt a) []
  | opts {a : RE} {l : List Char} : RE.Matches a l → RE.Matches (.opt a) l
  | plus1 {a : RE} {l : List Char} : RE.Matches a l → RE.Matches (.plus a) l
  | plusS {a : RE} {l1 l2 : List Char} :
      RE.Matches a l1 → RE.Matches (.plus a) l2 → RE.Matches (.plus a) (l1 ++ l2)

/-- Character class `r`. -/
def clR (c : Char) : Bool := c = 'r'

/-- Character class `u`. -/
def clU (c : Char) : Bool := c = 'u'

/-- Character class `e`. -/
def clE (c : Char) : Bool := c = 'e'

/-- The source's truthiness pattern `^([Tt]r?u?e|[1-9][0-9]+)$` as a
formal regular expression. -/
def trueBoolRE : RE :=
  .alt (.seq (.chr clTt) (.seq (.opt (.chr clR)) (.seq (.opt (.chr clU)) (.chr clE))))
       (.seq (.chr clPos) (.plus (.chr clDig)))

/-! ## Theorems -/

theorem index_of_lookup {c : Claims} {name : String} {v : JValue}
    (h : Claims.lookup c name = some v) : Claims.index c name = v := by
  simp [Claims.index, h]

theorem index_of_absent {c : Claims} {name : String}
    (h : Claims.lookup c name = none) : Claims.index c name = .null := by
  simp [Claims.index, h]

/-- C1: for every claim set and every claim name absent from it, `String`
returns "", `Strings` returns nil, `Bool` returns false, `Int` returns 0,
and `Time` returns the Unix epoch origin in UTC. -/
theorem claims_absent_defaults (c : Claims) (name : String)
    (h : Claims.lookup c name = none) :
    Claims.String c name = "" ∧ Claims.Strings c name = [] ∧
    Claims.Bool c name = false ∧ Claims.Int c name = 0 ∧
    Claims.Time c name = ⟨0, GoLoc.utc⟩ := by
  have hi : Claims.index c name = .null := index_of_absent h
  refine ⟨?_, ?_, ?_, ?_, ?_⟩ <;>
    simp [Claims.String, Claims.Strings, Claims.Bool, Claims.Int, Claims.Time, h, hi,
      stringify, timeUnix, GoTime.toUTC]

theorem claims_absent_defaults_witness :
    Claims.String [("iss", JValue.str "x")] "exp" = "" ∧
    Claims.Strings [("iss", JValue.str "x")] "exp" = [] ∧
    Claims.Bool [("iss", JValue.str "x")] "exp" = false ∧
    Claims.Int [("iss", JValue.str "x")] "exp" = 0 ∧
    Claims.Time [("iss", JValue.str "x")] "exp" = ⟨0, GoLoc.utc⟩ :=
  claims_absent_defaults [("iss", JValue.str "x")] "exp" rfl

/-- C2 counterexample: the value `int8(1)` is a positive value of a
standard integer width, yet `Bool` returns false for it — the type switch
has no 8- or 16-bit cases, so such values hit the default branch. -/
theorem bool_int8_counterexample :
    Claims.Bool [("n", JValue.goInt8 1)] "n" = false ∧ ((0 : Int) < 1) :=
  ⟨rfl, by decide⟩

/-- C2 amended: for claim values of the numeric types the switch
enumerates — `int`, `int32`, `int64`, `uint`, `uint32`, `uint64`,
`float32`, `float64` — `Bool` returns true iff the value is strictly
positive; 8- and 16-bit integer values always yield false. -/
theorem bool_numeric_by_width (c : Claims) (name : String) (v : JValue)
    (h : Claims.lookup c name = some v) :
    (∀ n : Int, v = .goInt n ∨ v = .goInt32 n ∨ v = .goInt64 n →
      Claims.Bool c name = decide (0 < n)) ∧
    (∀ n : Nat, v = .goUint n ∨ v = .goUint32 n ∨ v = .goUint64 n →
      Claims.Bool c name = decide (0 < n)) ∧
    (∀ q : Rat, v = .goFloat32 q ∨ v = .goFloat64 q →
      Claims.Bool c name = decide (0 < q)) ∧
    (∀ n : Int, v = .goInt8 n ∨ v = .goInt16 n → Claims.Bool c name = false) ∧
    (∀ n : Nat, v = .goUint8 n ∨ v = .goUint16 n → Claims.Bool c name = false) := by
  have hi : Claims.index c name = v := index_of_lookup h
  refine ⟨?_, ?_, ?_, ?_, ?_⟩ <;>
    · intro x hx
      rcases hx with rfl | rfl | rfl <;> simp [Claims.Bool, hi]

theorem bool_numeric_by_width_witness :
    Claims.Bool [("n", JValue.goInt 3)] "n" = decide ((0 : Int) < 3) :=
  (bool_numeric_by_width [("n", JValue.goInt 3)] "n" (JValue.goInt 3) rfl).1 3 (Or.inl rfl)

/-- C3 counterexample: the truthiness pattern is case-insensitive only in
its first letter and requires a final 'e', so "TRUE", "tru", "tr" and "t"
are all rejected, contradicting the claim that they are truthy tokens. -/
theorem bool_text_tokens_counterexample :
    Claims.Bool [("b", JValue.str "TRUE")] "b" = false ∧
    Claims.Bool [("b", JValue.str "tru")] "b" = false ∧
    Claims.Bool [("b", JValue.str "tr")] "b" = false ∧
    Claims.Bool [("b", JValue.str "t")] "b" = false := by
  decide

/-- C3 amended: among the claimed inputs, only "true" and "True" of the
letter tokens are truthy ("TRUE", "tru", "tr", "t" are not, the pattern
being case-insensitive only in its first letter and requiring the final
'e'); "10" and "99" are truthy; every single digit "0".."9" is falsy, as
are "false", "yes" and the empty string. -/
theorem bool_text_tokens :
    Claims.Bool [("b", JValue.str "true")] "b" = true ∧
    Claims.Bool [("b", JValue.str "True")] "b" = true ∧
    Claims.Bool [("b", JValue.str "TRUE")] "b" = false ∧
    Claims.Bool [("b", JValue.str "tru")] "b" = false ∧
    Claims.Bool [("b", JValue.str "tr")] "b" = false ∧
    Claims.Bool [("b", JValue.str "t")] "b" = false ∧
    Claims.Bool [("b", JValue.str "10")] "b" = true ∧
    Claims.Bool [("b", JValue.str "99")] "b" = true ∧
    Claims.Bool [("b", JValue.str "0")] "b" = false ∧
    Claims.Bool [("b", JValue.str "1")] "b" = false ∧
    Claims.Bool [("b", JValue.str "2")] "b" = false ∧
    Claims.Bool [("b", JValue.str "3")] "b" = false ∧
    Claims.Bool [("b", JValue.str "4")] "b" = false ∧
    Claims.Bool [("b", JValue.str "5")] "b" = false ∧
    Claims.Bool [("b", JValue.str "6")] "b" = false ∧
    Claims.Bool [("b", JValue.str "7")] "b" = false ∧
    Claims.Bool [("b", JValue.str "8")] "b" = false ∧
    Claims.Bool [("b", JValue.str "9")] "b" = false ∧
    Claims.Bool [("b", JValue.str "false")] "b" = false ∧
    Claims.Bool [("b", JValue.str "yes")] "b" = false ∧
    Claims.Bool [("b", JValue.str "")] "b" = false := by
  decide

/-- C10: a claim name mapped to the null value yields "" from `String`
but the one-element sequence [""] from `Strings` (null hits the
stringify-and-wrap default branch of the present-value switch), while an
absent name — here against the empty claim set — yields nil. -/
theorem null_claim_coercions (c : Claims) (name : String)
    (h : Claims.lookup c name = some JValue.null) :
    Claims.String c name = "" ∧ Claims.Strings c name = [""] ∧
    Claims.Strings ([] : Claims) name = [] := by
  have hi : Claims.index c name = .null := index_of_lookup h
  refine ⟨by simp [Claims.String, hi, stringify], ?_, ?_⟩
  · simp [Claims.Strings, h, stringify]
  · simp [Claims.Strings, Claims.lookup]

theorem null_claim_coercions_witness :
    Claims.String [("a", JValue.null)] "a" = "" ∧
    Claims.Strings [("a", JValue.null)] "a" = [""] ∧
    Claims.Strings ([] : Claims) "a" = [] :=
  null_claim_coercions [("a", JValue.null)] "a" rfl

/-- C8: `Strings` wraps a single text value into a one-element sequence,
and maps `stringify` over a sequence of arbitrary values, preserving
length and order; in particular the mixed sequence `[1, "x", true]`
yields `["1", "x", "true"]`. -/
theorem strings_coercion (c : Claims) (name : String) :
    (∀ t : String, Claims.lookup c name = some (.str t) → Claims.Strings c name = [t]) ∧
    (∀ l : List JValue, Claims.lookup c name = some (.list l) →
      Claims.Strings c name = l.map stringify ∧
      (Claims.Strings c name).length = l.length) ∧
    Claims.Strings [("r", JValue.list [JValue.goInt 1, JValue.str "x", JValue.boolean true])] "r"
      = ["1", "x", "true"] := by
  refine ⟨?_, ?_, by decide⟩
  · intro t h; simp [Claims.Strings, h]
  · intro l h; simp [Claims.Strings, h]

theorem strings_coercion_witness :
    Claims.Strings [("scope", JValue.str "admin")] "scope" = ["admin"] :=
  (strings_coercion [("scope", JValue.str "admin")] "scope").1 "admin" rfl

theorem wrap64_range (z : Int) : -(2 ^ 63) ≤ wrap64 z ∧ wrap64 z < 2 ^ 63 := by
  unfold wrap64
  have h1 : 0 ≤ (z + 2 ^ 63) % 2 ^ 64 := Int.emod_nonneg _ (by norm_num)
  have h2 : (z + 2 ^ 63) % 2 ^ 64 < 2 ^ 64 := Int.emod_lt_of_pos _ (by norm_num)
  omega

theorem wrap64_eq_self (z : Int) (h1 : -(2 ^ 63) ≤ z) (h2 : z < 2 ^ 63) : wrap64 z = z := by
  unfold wrap64
  rw [Int.emod_eq_of_lt (by omega) (by omega)]
  omega

theorem parseSigned_range {neg : Bool} {l : List Char} {z : Int}
    (h : parseSigned neg l = some z) : -(2 ^ 63) ≤ z ∧ z < 2 ^ 63 := by
  cases hp : parseNatDec l with
  | none => simp [parseSigned, hp] at h
  | some n => cases neg <;> simp [parseSigned, hp] at h <;> omega

theorem parseInt64L_range {l : List Char} {z : Int}
    (h : parseInt64L l = some z) : -(2 ^ 63) ≤ z ∧ z < 2 ^ 63 := by
  cases l with
  | nil => exact absurd h (by simp [parseInt64L])
  | cons c rest =>
    simp only [parseInt64L] at h
    split at h
    · exact parseSigned_range h
    · split at h
      · exact parseSigned_range h
      · exact parseSigned_range h

theorem parseInt64_range {s : String} {z : Int}
    (h : parseInt64 s = some z) : -(2 ^ 63) ≤ z ∧ z < 2 ^ 63 :=
  parseInt64L_range h

/-- C9: in this embedding every coercion is a plain total function — no
branch is missing and no error is possible.  The refutable residue of the
claim is verified here: on any well-formed claim set `Int` always lands
in the signed 64-bit range (the parse path checks its bounds, the
conversion paths wrap), and `Time` always carries the UTC location. -/
theorem coercions_total (c : Claims) (name : String)
    (hwf : ∀ v, Claims.lookup c name = some v → wfv v = true) :
    (-(2 ^ 63) ≤ Claims.Int c name ∧ Claims.Int c name < 2 ^ 63) ∧
    (Claims.Time c name).loc = GoLoc.utc := by
  cases hv : Claims.lookup c name with
  | none =>
    have hi := index_of_absent hv
    constructor
    · simp [Claims.Int, hi]
    · simp [Claims.Time, hi, timeUnix, GoTime.toUTC]
  | some v =>
    have hw := hwf v hv
    have hi := index_of_lookup hv
    constructor
    · cases v <;> simp [Claims.Int, hi, wfv] at hw ⊢
      case goInt n => omega
      case goInt32 n => omega
      case goInt64 n => omega
      case goUint n => exact wrap64_range n
      case goUint32 n => omega
      case goUint64 n => exact wrap64_range n
      case goFloat32 q => exact wrap64_range (ratTrunc q)
      case goFloat64 q => exact wrap64_range (ratTrunc q)
      case str s =>
        cases hp : parseInt64 s with
        | none => simp [hp]
        | some z => simpa [hp] using parseInt64_range hp
    · cases v <;>
        simp [Claims.Time, hi, timeUnix, GoTime.toUTC]
      case str s => cases hp : rfc822Parse s <;> simp [hp, timeUnix, GoTime.toUTC]

theorem coercions_total_witness :
    (-(2 ^ 63) ≤ Claims.Int [("n", JValue.goUint64 5)] "n" ∧
      Claims.Int [("n", JValue.goUint64 5)] "n" < 2 ^ 63) ∧
    (Claims.Time [("n", JValue.goUint64 5)] "n").loc = GoLoc.utc :=
  coercions_total [("n", JValue.goUint64 5)] "n"
    (fun v h => by cases h; rfl)

/-- C6: a claim stored as an epoch-seconds integer round-trips through
`Time`: the result is the UTC instant with exactly those epoch seconds;
a floating value contributes its integer part, the fraction being
truncated by the seconds-granularity conversion. -/
theorem time_numeric_roundtrip (c : Claims) (name : String) :
    (∀ s : Int, -(2 ^ 63) ≤ s → s < 2 ^ 63 →
      Claims.lookup c name = some (.goInt64 s) →
      Claims.Time c name = ⟨s, GoLoc.utc⟩) ∧
    (∀ s : Int, Claims.lookup c name = some (.goInt s) →
      Claims.Time c name = ⟨s, GoLoc.utc⟩) ∧
    (∀ q : Rat, -(2 ^ 63) ≤ ratTrunc q → ratTrunc q < 2 ^ 63 →
      Claims.lookup c name = some (.goFloat64 q) →
      Claims.Time c name = ⟨ratTrunc q, GoLoc.utc⟩) := by
  refine ⟨?_, ?_, ?_⟩
  · intro s _ _ h
    have hi := index_of_lookup h
    simp [Claims.Time, hi, timeUnix, GoTime.toUTC]
  · intro s h
    have hi := index_of_lookup h
    simp [Claims.Time, hi, timeUnix, GoTime.toUTC]
  · intro q h1 h2 h
    have hi := index_of_lookup h
    simp [Claims.Time, hi, timeUnix, GoTime.toUTC, wrap64_eq_self _ h1 h2]

theorem time_numeric_roundtrip_witness :
    Claims.Time [("exp", JValue.goInt64 1700000000)] "exp" = ⟨1700000000, GoLoc.utc⟩ :=
  (time_numeric_roundtrip [("exp", JValue.goInt64 1700000000)] "exp").1
    1700000000 (by decide) (by decide) rfl

/-- C7: a text claim goes through the RFC 822 parser — on success `Time`
returns the parsed instant converted to UTC, on failure it returns the
Unix epoch origin in UTC instead of signalling an error; "not-a-date"
fails to parse, while well-formed RFC 822 timestamps — with the UTC
zone, a named abbreviation, or a signed numeric offset — parse to their
epoch-seconds instant. -/
theorem time_text_rfc822 (c : Claims) (name : String) (s : String)
    (h : Claims.lookup c name = some (.str s)) :
    (∀ t, rfc822Parse s = some t → Claims.Time c name = t.toUTC) ∧
    (rfc822Parse s = none → Claims.Time c name = ⟨0, GoLoc.utc⟩) ∧
    rfc822Parse "not-a-date" = none ∧
    rfc822Parse "02 Jan 06 15:04 UTC" = some ⟨1136214240, GoLoc.utc⟩ ∧
    rfc822Parse "02 Jan 06 15:04 MST" = some ⟨1136214240, GoLoc.goLocal⟩ ∧
    rfc822Parse "02 Jan 06 15:04 +03" = some ⟨1136214240, GoLoc.goLocal⟩ := by
  have hi := index_of_lookup h
  refine ⟨?_, ?_, by decide, by decide, by decide, by decide⟩
  · intro t ht
    simp [Claims.Time, hi, ht]
  · intro ht
    simp [Claims.Time, hi, ht, timeUnix, GoTime.toUTC]

theorem time_text_rfc822_witness :
    Claims.Time [("nbf", JValue.str "not-a-date")] "nbf" = ⟨0, GoLoc.utc⟩ :=
  ((time_text_rfc822 [("nbf", JValue.str "not-a-date")] "nbf" "not-a-date" rfl).2.1)
    (by decide)

theorem digitChar_spec (d : Nat) (h : d < 10) :
    clDig (digitChar d) = true ∧ (digitChar d).toNat - 48 = d := by
  interval_cases d <;> exact ⟨by decide, by decide⟩

theorem digitChar_ne_plus (d : Nat) (h : d < 10) : digitChar d ≠ '+' := by
  interval_cases d <;> decide

theorem digitChar_ne_minus (d : Nat) (h : d < 10) : digitChar d ≠ '-' := by
  interval_cases d <;> decide

theorem natDigitsCore_head (fuel : Nat) :
    ∀ (n : Nat) (acc : List Nat), n ≤ fuel →
    ∃ d tl, natDigitsCore fuel n acc = d :: tl ∧ d < 10 := by
  induction fuel with
  | zero =>
    intro n acc h
    exact ⟨n, acc, rfl, by omega⟩
  | succ fuel ih =>
    intro n acc h
    by_cases hn : n < 10
    · exact ⟨n, acc, by simp [natDigitsCore, hn], hn⟩
    · have hdiv : n / 10 ≤ fuel := by
        have h2 := Nat.div_lt_self (show 0 < n by omega) (show 1 < 10 by omega)
        omega
      obtain ⟨d, tl, heq, hd⟩ := ih (n / 10) (n % 10 :: acc) hdiv
      exact ⟨d, tl, by simp [natDigitsCore, hn, heq], hd⟩

theorem decDigits_natDigitsCore (fuel : Nat) :
    ∀ (n a : Nat) (acc : List Nat), n ≤ fuel →
    decDigitsVal a ((natDigitsCore fuel n acc).map digitChar)
      = decDigitsVal (a * tenPowCore fuel n + n) (acc.map digitChar) := by
  induction fuel with
  | zero =>
    intro n a acc h
    obtain rfl : n = 0 := by omega
    simp [natDigitsCore, tenPowCore, decDigitsVal,
      (digitChar_spec 0 (by omega)).1, (digitChar_spec 0 (by omega)).2]
  | succ fuel ih =>
    intro n a acc h
    by_cases hn : n < 10
    · simp [natDigitsCore, tenPowCore, hn, decDigitsVal,
        (digitChar_spec n hn).1, (digitChar_spec n hn).2]
    · have hdiv : n / 10 ≤ fuel := by
        have h2 := Nat.div_lt_self (show 0 < n by omega) (show 1 < 10 by omega)
        omega
      rw [show natDigitsCore (fuel + 1) n acc = natDigitsCore fuel (n / 10) (n % 10 :: acc)
        from by simp [natDigitsCore, hn]]
      rw [ih (n / 10) a (n % 10 :: acc) hdiv]
      have hm : n % 10 < 10 := Nat.mod_lt _ (by omega)
      rw [List.map_cons]
      rw [show decDigitsVal (a * tenPowCore fuel (n / 10) + n / 10)
            (digitChar (n % 10) :: acc.map digitChar)
          = decDigitsVal ((a * tenPowCore fuel (n / 10) + n / 10) * 10 + n % 10)
            (acc.map digitChar)
        from by simp [decDigitsVal, (digitChar_spec _ hm).1, (digitChar_spec _ hm).2]]
      rw [show tenPowCore (fuel + 1) n = 10 * tenPowCore fuel (n / 10)
        from by simp [tenPowCore, hn]]
      congr 1
      calc (a * tenPowCore fuel (n / 10) + n / 10) * 10 + n % 10
          = a * tenPowCore fuel (n / 10) * 10 + (10 * (n / 10) + n % 10) := by ring
        _ = a * tenPowCore fuel (n / 10) * 10 + n := by rw [Nat.div_add_mod]
        _ = a * (10 * tenPowCore fuel (n / 10)) + n := by ring

theorem parseNatDec_formatNat (n : Nat) : parseNatDec (formatNat n) = some n := by
  obtain ⟨d, tl, heq, hd⟩ := natDigitsCore_head n n [] le_rfl
  have key := decDigits_natDigitsCore n n 0 [] le_rfl
  unfold formatNat
  rw [heq, List.map_cons]
  show decDigitsVal 0 (digitChar d :: tl.map digitChar) = some n
  rw [← List.map_cons, ← heq, key]
  simp [decDigitsVal]

theorem parseSigned_neg_formatNat (n : Int) (h1 : -(2 ^ 63) ≤ n) (hn : n < 0) :
    parseSigned true (formatNat n.natAbs) = some n := by
  unfold parseSigned
  rw [parseNatDec_formatNat]
  show (if n.natAbs ≤ 2 ^ 63 then some (-(n.natAbs : Int)) else none) = some n
  rw [if_pos (show n.natAbs ≤ 2 ^ 63 by omega)]
  congr 1
  omega

theorem parseSigned_pos_formatNat (n : Int) (hn : 0 ≤ n) (h2 : n < 2 ^ 63) :
    parseSigned false (formatNat n.natAbs) = some n := by
  unfold parseSigned
  rw [parseNatDec_formatNat]
  show (if n.natAbs ≤ 2 ^ 63 - 1 then some ((n.natAbs : Nat) : Int) else none) = some n
  rw [if_pos (show n.natAbs ≤ 2 ^ 63 - 1 by omega)]
  congr 1
  omega

theorem parseInt64_formatInt (n : Int) (h1 : -(2 ^ 63) ≤ n) (h2 : n < 2 ^ 63) :
    parseInt64 (formatInt n) = some n := by
  by_cases hn : n < 0
  · have hdata : (formatInt n).data = '-' :: formatNat n.natAbs := by
      unfold formatInt
      rw [if_pos hn]
    unfold parseInt64
    rw [hdata]
    show parseSigned true (formatNat n.natAbs) = some n
    exact parseSigned_neg_formatNat n h1 hn
  · have hdata : (formatInt n).data = formatNat n.natAbs := by
      unfold formatInt
      rw [if_neg hn]
    obtain ⟨d, tl, heq, hd⟩ := natDigitsCore_head n.natAbs n.natAbs [] le_rfl
    have heq2 : formatNat n.natAbs = digitChar d :: tl.map digitChar := by
      unfold formatNat
      rw [heq, List.map_cons]
    unfold parseInt64
    rw [hdata, heq2]
    simp only [parseInt64L]
    rw [if_neg (digitChar_ne_plus d hd), if_neg (digitChar_ne_minus d hd), ← heq2]
    exact parseSigned_pos_formatNat n (by omega) h2

/-- C5: `Int` round-trips signed 64-bit integers — a claim stored as the
integer itself comes back exactly, and a claim stored as its base-10
decimal text rendering parses back exactly. -/
theorem int_roundtrip (c : Claims) (name : String) (n : Int)
    (h1 : -(2 ^ 63) ≤ n) (h2 : n < 2 ^ 63) :
    (Claims.lookup c name = some (.goInt64 n) → Claims.Int c name = n) ∧
    (Claims.lookup c name = some (.str (formatInt n)) → Claims.Int c name = n) := by
  constructor
  · intro h
    have hi := index_of_lookup h
    simp [Claims.Int, hi]
  · intro h
    have hi := index_of_lookup h
    simp [Claims.Int, hi, parseInt64_formatInt n h1 h2]

theorem int_roundtrip_witness :
    Claims.Int [("a", JValue.str "-42")] "a" = -42 := by
  have h := (int_roundtrip [("a", JValue.str "-42")] "a" (-42) (by decide) (by decide)).2
  have hf : formatInt (-42) = "-42" := by decide
  rw [← hf] at h ⊢
  exact h rfl

theorem matches_chr {p : Char → Bool} {l : List Char} :
    RE.Matches (.chr p) l ↔ ∃ c, l = [c] ∧ p c = true := by
  constructor
  · intro h
    cases h with
    | chr hp => exact ⟨_, rfl, hp⟩
  · rintro ⟨c, rfl, hp⟩
    exact .chr hp

theorem matches_alt {a b : RE} {l : List Char} :
    RE.Matches (.alt a b) l ↔ RE.Matches a l ∨ RE.Matches b l := by
  constructor
  · intro h
    cases h with
    | altl h => exact Or.inl h
    | altr h => exact Or.inr h
  · rintro (h | h)
    · exact .altl h
    · exact .altr h

theorem matches_seq {a b : RE} {l : List Char} :
    RE.Matches (.seq a b) l ↔
      ∃ l1 l2, l = l1 ++ l2 ∧ RE.Matches a l1 ∧ RE.Matches b l2 := by
  constructor
  · intro h
    cases h with
    | seqm h1 h2 => exact ⟨_, _, rfl, h1, h2⟩
  · rintro ⟨l1, l2, rfl, h1, h2⟩
    exact .seqm h1 h2

theorem matches_opt {a : RE} {l : List Char} :
    RE.Matches (.opt a) l ↔ l = [] ∨ RE.Matches a l := by
  constructor
  · intro h
    cases h with
    | optn => exact Or.inl rfl
    | opts h => exact Or.inr h
  · rintro (rfl | h)
    · exact .optn
    · exact .opts h

theorem matches_plus_chr_aux {r : RE} {l : List Char} (h : RE.Matches r l) :
    ∀ p : Char → Bool, r = .plus (.chr p) → l ≠ [] ∧ l.all p = true := by
  induction h with
  | chr hp => intro p hre; cases hre
  | seqm h1 h2 ih1 ih2 => intro p hre; cases hre
  | altl h ih => intro p hre; cases hre
  | altr h ih => intro p hre; cases hre
  | optn => intro p hre; cases hre
  | opts h ih => intro p hre; cases hre
  | plus1 h ih =>
    intro p hre
    injection hre with ha
    subst ha
    rcases matches_chr.mp h with ⟨c, rfl, hc⟩
    simp [hc]
  | plusS h1 h2 ih1 ih2 =>
    intro p hre
    injection hre with ha
    subst ha
    rcases matches_chr.mp h1 with ⟨c, rfl, hc⟩
    have h3 := ih2 p rfl
    simp [hc, h3.2]

theorem plus_chr_of_all {p : Char → Bool} :
    ∀ l : List Char, l.all p = true → l ≠ [] → RE.Matches (.plus (.chr p)) l := by
  intro l
  induction l with
  | nil => intro _ h; exact absurd rfl h
  | cons c rest ih =>
    intro hall _
    rw [List.all_cons, Bool.and_eq_true] at hall
    by_cases hrest : rest = []
    · subst hrest
      exact .plus1 (.chr hall.1)
    · have hm := ih hall.2 hrest
      have hl : c :: rest = [c] ++ rest := rfl
      rw [hl]
      exact .plusS (.chr hall.1) hm

theorem matchTail_eq_true {l : List Char} (h : matchTail l = true) :
    l = ['e'] ∨ l = ['r', 'e'] ∨ l = ['u', 'e'] ∨ l = ['r', 'u', 'e'] := by
  unfold matchTail at h
  split at h
  · left; rfl
  · right; left; rfl
  · right; right; left; rfl
  · right; right; right; rfl
  · exact absurd h (by simp)

theorem clPos_not_clTt (c : Char) (h : clPos c = true) : clTt c = false := by
  have h1 : 49 ≤ c.toNat ∧ c.toNat ≤ 57 := by simpa [clPos] using h
  have hT : c ≠ 'T' := by rintro rfl; revert h1; decide
  have ht : c ≠ 't' := by rintro rfl; revert h1; decide
  simp [clTt, hT, ht]

theorem trueBoolL_iff_matches (l : List Char) :
    trueBoolL l = true ↔ RE.Matches trueBoolRE l := by
  constructor
  · intro h
    cases l with
    | nil => exact absurd h (by simp [trueBoolL])
    | cons c rest =>
      simp only [trueBoolL] at h
      by_cases hT : clTt c
      · rw [if_pos hT] at h
        rcases matchTail_eq_true h with rfl | rfl | rfl | rfl
        · exact .altl (.seqm (.chr hT)
            (.seqm .optn (.seqm .optn (.chr (by decide)))))
        · exact .altl (.seqm (.chr hT)
            (.seqm (.opts (.chr (by decide))) (.seqm .optn (.chr (by decide)))))
        · exact .altl (.seqm (.chr hT)
            (.seqm .optn (.seqm (.opts (.chr (by decide))) (.chr (by decide)))))
        · exact .altl (.seqm (.chr hT)
            (.seqm (.opts (.chr (by decide)))
              (.seqm (.opts (.chr (by decide))) (.chr (by decide)))))
      · rw [if_neg hT] at h
        by_cases hP : clPos c
        · rw [if_pos hP] at h
          rw [Bool.and_eq_true] at h
          have hne : rest ≠ [] := by
            cases rest
            · simp at h
            · simp
          have hm := plus_chr_of_all rest h.2 hne
          exact .altr (.seqm (.chr hP) hm)
        · rw [if_neg hP] at h
          exact absurd h (by simp)
  · intro h
    rcases matches_alt.mp h with h | h
    · rcases matches_seq.mp h with ⟨l1, l2, rfl, h1, h2⟩
      rcases matches_chr.mp h1 with ⟨c, rfl, hc⟩
      rcases matches_seq.mp h2 with ⟨m1, m2, rfl, hR, h3⟩
      rcases matches_seq.mp h3 with ⟨n1, n2, rfl, hU, hE⟩
      rcases matches_chr.mp hE with ⟨e, rfl, he⟩
      obtain rfl : e = 'e' := by simpa [clE] using he
      rcases matches_opt.mp hR with rfl | hR2
      · rcases matches_opt.mp hU with rfl | hU2
        · simp [trueBoolL, hc, matchTail]
        · rcases matches_chr.mp hU2 with ⟨u, rfl, hu⟩
          obtain rfl : u = 'u' := by simpa [clU] using hu
          simp [trueBoolL, hc, matchTail]
      · rcases matches_chr.mp hR2 with ⟨r, rfl, hr⟩
        obtain rfl : r = 'r' := by simpa [clR] using hr
        rcases matches_opt.mp hU with rfl | hU2
        · simp [trueBoolL, hc, matchTail]
        · rcases matches_chr.mp hU2 with ⟨u, rfl, hu⟩
          obtain rfl : u = 'u' := by simpa [clU] using hu
          simp [trueBoolL, hc, matchTail]
    · rcases matches_seq.mp h with ⟨l1, l2, rfl, h1, h2⟩
      rcases matches_chr.mp h1 with ⟨c, rfl, hc⟩
      have hall := matches_plus_chr_aux h2 clDig rfl
      have hT : clTt c = false := clPos_not_clTt c hc
      have hie : l2.isEmpty = false := by
        cases l2
        · exact absurd rfl hall.1
        · rfl
      simp [trueBoolL, hT, hc, hie, hall.2]

/-- C4: for a text claim value, `Bool` returns true exactly when the
whole string matches the anchored regular expression
`^([Tt]r?u?e|[1-9][0-9]+)$`, here rendered as the formal regular
expression `trueBoolRE` with its standard matching semantics. -/
theorem bool_text_matches_regex (c : Claims) (name : String) (s : String)
    (h : Claims.lookup c name = some (.str s)) :
    Claims.Bool c name = true ↔ RE.Matches trueBoolRE s.data := by
  have hi := index_of_lookup h
  have hb : Claims.Bool c name = trueBoolL s.data := by
    simp [Claims.Bool, hi, trueBool]
  rw [hb]
  exact trueBoolL_iff_matches s.data

theorem bool_text_matches_regex_witness :
    RE.Matches trueBoolRE ("true".data) :=
  (bool_text_matches_regex [("b", JValue.str "true")] "b" "true" rfl).mp (by decide)
